import Mathlib

/-!
Verification of the `oxitools/core` runtime type-inspection utilities
(`src/mod.ts`): the predicate set (`isString`, `isNumber`, ..., `isPromise`,
`isPlainObject`), the classifier `getTypeOf`, the assertion helpers
`assert` / `raise`, and the object-shaping helpers `pick` / `omit`.

The host language's values are embedded as the inductive `JSValue`:
primitives carry their payloads, and objects carry a class marker (which
determines `instanceof` against the built-in constructors and the internal
`[object Tag]` tag), an own-property association list with string keys, and
a prototype (another value, `null` at the end of the chain).  Finite numeric
payloads are modelled at integer granularity: the code under verification
distinguishes numeric values only as finite / infinite / not-a-number.
-/

/-- Numeric values: a finite magnitude, the two infinities, and the
not-a-number value. -/
inductive JSNumber where
  | finite (i : Int)
  | posInf
  | negInf
  | nan
  deriving DecidableEq, Repr

/-- The typed-array variants distinguished by the internal tag mechanism. -/
inductive TypedArrayKind where
  | int8 | uint8 | uint8c | int16 | uint16 | int32 | uint32
  | float32 | float64 | bigint64 | biguint64
  deriving DecidableEq, Repr

/-- The class of an object value: ordinary objects, the built-in reference
types the module discriminates, typed arrays, and objects carrying a custom
toStringTag override (which changes their internal `[object Tag]` tag). A
date carries its internal timestamp slot. -/
inductive JSClass where
  | plain
  | array
  | date (time : JSNumber)
  | regexp
  | map
  | set
  | promise
  | error
  | arraybuffer
  | typedArr (t : TypedArrayKind)
  | tagged (tag : String)
  deriving DecidableEq, Repr

/-- A runtime value: the seven primitive categories, functions (identified
by a numeric id), and objects with a class, own properties and a
prototype. -/
inductive JSValue where
  | undefined
  | null
  | boolean (b : Bool)
  | number (n : JSNumber)
  | string (s : String)
  | symbol (id : Nat)
  | bigint (i : Int)
  | func (id : Nat)
  | object (cls : JSClass) (props : List (String × JSValue)) (proto : JSValue)
  deriving Repr

/-- The `typeof` operator. `typeof null` is `"object"`; functions get their
own tag. -/
def jsTypeof : JSValue → String
  | .undefined => "undefined"
  | .null => "object"
  | .boolean _ => "boolean"
  | .number _ => "number"
  | .string _ => "string"
  | .symbol _ => "symbol"
  | .bigint _ => "bigint"
  | .func _ => "function"
  | .object _ _ _ => "object"

/-- Own-property list of an object (`Reflect.ownKeys` order); empty for
non-objects, which the module never reaches. -/
def ownProps : JSValue → List (String × JSValue)
  | .object _ props _ => props
  | _ => []

/-- `Object.getPrototypeOf`, applied by the module only to objects. -/
def protoOf : JSValue → JSValue
  | .object _ _ proto => proto
  | _ => .null

/-- First binding of a key in an own-property list. -/
def lookupProp (props : List (String × JSValue)) (k : String) : Option JSValue :=
  match props with
  | [] => none
  | p :: rest => if p.1 == k then some p.2 else lookupProp rest k

/-- The `in` operator: whether the key is an own property or appears
anywhere on the prototype chain. -/
def hasPropChain (k : String) : JSValue → Bool
  | .object _ props proto => (lookupProp props k).isSome || hasPropChain k proto
  | _ => false

/-- Property read (`value.k` / `Reflect.get`): own properties first, then
the prototype chain, `undefined` past its end. -/
def getPropChain (k : String) : JSValue → JSValue
  | .object _ props proto =>
    match lookupProp props k with
    | some w => w
    | none => getPropChain k proto
  | _ => .undefined

/-- Whether a numeric value is a finite magnitude. -/
def isFiniteJSNum : JSNumber → Bool
  | .finite _ => true
  | _ => false

/-- mod.ts line 94: `isString` is an exact primitive-tag match. -/
def isString (v : JSValue) : Bool := jsTypeof v == "string"

/-- Global `isFinite` as used under a `typeof value === "number"` guard: on
numeric values no coercion happens and it holds exactly for finite
magnitudes. -/
def isFiniteNumber : JSValue → Bool
  | .number n => isFiniteJSNum n
  | _ => false

/-- mod.ts line 113: `isNumber` requires the number tag and finiteness. -/
def isNumber (v : JSValue) : Bool := jsTypeof v == "number" && isFiniteNumber v

/-- mod.ts line 128: `isBoolean`. -/
def isBoolean (v : JSValue) : Bool := jsTypeof v == "boolean"

/-- mod.ts line 143: `isBigInt`. -/
def isBigInt (v : JSValue) : Bool := jsTypeof v == "bigint"

/-- mod.ts line 158: `isSymbol`. -/
def isSymbol (v : JSValue) : Bool := jsTypeof v == "symbol"

/-- mod.ts line 173: `isObject` is the bare primitive-tag test, so it
admits `null` (whose `typeof` is `"object"`). -/
def isObject (v : JSValue) : Bool := jsTypeof v == "object"

/-- mod.ts line 188: `isUndefined`. -/
def isUndefined (v : JSValue) : Bool := jsTypeof v == "undefined"

/-- mod.ts line 203: `isNull` is a strict equality with `null`. -/
def isNull : JSValue → Bool
  | .null => true
  | _ => false

/-- mod.ts line 234: `Array.isArray`. -/
def isArray : JSValue → Bool
  | .object .array _ _ => true
  | _ => false

/-- mod.ts line 295: `isFunction` is the primitive-tag test for
callables. -/
def isFunction (v : JSValue) : Bool := jsTypeof v == "function"

/-- The built-in constructors the module passes to `isInstanceOf`. -/
inductive BuiltinCtor where
  | date | map | set | regexp | error | promise
  deriving DecidableEq

/-- mod.ts line 75: `value instanceof C` for the built-in classes the
module checks: an object is an instance exactly of its own class. -/
def isInstanceOf (v : JSValue) (c : BuiltinCtor) : Bool :=
  match v, c with
  | .object (.date _) _ _, .date => true
  | .object .map _ _, .map => true
  | .object .set _ _, .set => true
  | .object .regexp _ _, .regexp => true
  | .object .error _ _, .error => true
  | .object .promise _ _, .promise => true
  | _, _ => false

/-- mod.ts line 389: `isMap`. -/
def isMap (v : JSValue) : Bool := isInstanceOf v .map

/-- mod.ts line 406: `isSet`. -/
def isSet (v : JSValue) : Bool := isInstanceOf v .set

/-- mod.ts line 425: `isRegExp`. -/
def isRegExp (v : JSValue) : Bool := isInstanceOf v .regexp

/-- mod.ts line 372: `isError`. -/
def isError (v : JSValue) : Bool := isInstanceOf v .error

/-- `Date.prototype.getTime`: the internal timestamp slot (only read when
the receiver is known to be a date). -/
def getTime : JSValue → JSNumber
  | .object (.date t) _ _ => t
  | _ => .nan

/-- mod.ts line 355: `isDate` is the nominal date check conjoined with
finiteness of the internal timestamp. -/
def isDate (v : JSValue) : Bool :=
  isInstanceOf v .date && isFiniteJSNum (getTime v)

/-- mod.ts line 328: `isPromise` is the nominal promise check, or the
duck-typed thenable fallback: a non-null object-tagged value with callable
`then`, `catch` and `finally` members. -/
def isPromise (v : JSValue) : Bool :=
  isInstanceOf v .promise ||
    (isObject v && !isNull v &&
      hasPropChain "then" v && isFunction (getPropChain "then" v) &&
      hasPropChain "catch" v && isFunction (getPropChain "catch" v) &&
      hasPropChain "finally" v && isFunction (getPropChain "finally" v))

/-- `Function.prototype.toString` source text, modelled injectively by
function identity; the base `Object` constructor is the function with
id 0 (native functions stringify with their own names, so only the base
constructor's text equals the base constructor's text). -/
def funcSource : Nat → String
  | 0 => "function Object() \x7b [native code] \x7d"
  | n + 1 => "function f" ++ toString (n + 1) ++ "() \x7b\x7d"

/-- `f instanceof f` for a function value: holds for the base `Object`
constructor (its prototype object sits on its own prototype chain), not
for ordinary user functions. -/
def funcInstanceOfSelf : Nat → Bool
  | 0 => true
  | _ + 1 => false

/-- mod.ts line 249: `isPlainObject`. Rejects nullish values and
non-objects; an absent prototype means plain; otherwise the prototype's own
`constructor` member must be a callable whose self-instance check holds and
whose source text matches the base `Object` constructor's. -/
def isPlainObject (v : JSValue) : Bool :=
  if isNull v || isUndefined v then false
  else if jsTypeof v != "object" then false
  else if isNull (protoOf v) then true
  else
    match lookupProp (ownProps (protoOf v)) "constructor" with
    | none => false
    | some ctor =>
      match ctor with
      | .func id => funcInstanceOfSelf id && (funcSource id == funcSource 0)
      | _ => false

/-- Strict self-equality `v === v`: false exactly for the not-a-number
value (objects compare to themselves by reference, hence true). -/
def selfStrictEq : JSValue → Bool
  | .number .nan => false
  | _ => true

/-- `value === Infinity`. -/
def eqPosInfinity : JSValue → Bool
  | .number .posInf => true
  | _ => false

/-- `value === -Infinity`. -/
def eqNegInfinity : JSValue → Bool
  | .number .negInf => true
  | _ => false

/-- Global `isNaN` as applied under the `typeof value === "number"` guard
in `getTypeOf`: on numeric values no coercion happens and it is exactly
the self-inequality test, true only for the not-a-number value. -/
def jsIsNaN : JSValue → Bool
  | .number .nan => true
  | _ => false

/-- A `\w` word character of the tag-extraction pattern. -/
def isWordChar (c : Char) : Bool := c.isAlphanum || c == '_'

/-- Strip an expected prefix off a character list. -/
def stripPfx : List Char → List Char → Option (List Char)
  | [], rest => some rest
  | _ :: _, [] => none
  | p :: ps, c :: cs => if p == c then stripPfx ps cs else none

/-- Leftmost match of the pattern `\[object (\w+)\]` in a character list,
returning the captured word run: at each position, the literal head
`"[object "`, then a non-empty maximal word run, then `]`. -/
def findTagMatch : List Char → Option (List Char)
  | [] => none
  | c :: cs =>
    match stripPfx ("[object ".data) (c :: cs) with
    | some rest =>
      let run := rest.takeWhile isWordChar
      if run.length > 0 && (rest.drop run.length).head? == some ']' then
        some run
      else findTagMatch cs
    | none => findTagMatch cs

/-- ASCII lowercasing of a character (the tags lowercased by the module are
ASCII). -/
def lowerChar (c : Char) : Char :=
  if c.isUpper then Char.ofNat (c.toNat + 32) else c

/-- `String.prototype.toLowerCase` on the strings the module lowercases. -/
def lowerStr (s : String) : String := String.mk (s.data.map lowerChar)

/-- The internal tag of a typed array. -/
def TypedArrayKind.tagName : TypedArrayKind → String
  | .int8 => "Int8Array"
  | .uint8 => "Uint8Array"
  | .uint8c => "Uint8ClampedArray"
  | .int16 => "Int16Array"
  | .uint16 => "Uint16Array"
  | .int32 => "Int32Array"
  | .uint32 => "Uint32Array"
  | .float32 => "Float32Array"
  | .float64 => "Float64Array"
  | .bigint64 => "BigInt64Array"
  | .biguint64 => "BigUint64Array"

/-- The internal tag of an object class: the built-in tag, or the custom
toStringTag override for tagged objects. -/
def JSClass.tagName : JSClass → String
  | .plain => "Object"
  | .array => "Array"
  | .date _ => "Date"
  | .regexp => "RegExp"
  | .map => "Map"
  | .set => "Set"
  | .promise => "Promise"
  | .error => "Error"
  | .arraybuffer => "ArrayBuffer"
  | .typedArr t => t.tagName
  | .tagged s => s

/-- The tag inside `Object.prototype.toString.call(value)`; `getTypeOf`
only reaches this for object values. -/
def internalTag : JSValue → String
  | .object cls _ _ => cls.tagName
  | .func _ => "Function"
  | .undefined => "Undefined"
  | .null => "Null"
  | .boolean _ => "Boolean"
  | .number _ => "Number"
  | .string _ => "String"
  | .symbol _ => "Symbol"
  | .bigint _ => "BigInt"

/-- mod.ts line 567: `getTypeOf`, the ordered short-circuiting classifier:
null, the infinities, the primitive tags (with the guarded NaN test), then
arrays, dates, patterns, callables, and finally the internal-tag fallback
with its `"unknown"` defensive branch. -/
def getTypeOf (value : JSValue) : String :=
  if isNull value then "null"
  else if eqPosInfinity value || eqNegInfinity value then "infinity"
  else
    let type := jsTypeof value
    if type != "object" && type != "function" then
      if type == "number" && jsIsNaN value then "nan"
      else lowerStr type
    else if isArray value then "array"
    else if isInstanceOf value .date then "date"
    else if isRegExp value then "regexp"
    else if isFunction value then "function"
    else
      let rawType := "[object " ++ internalTag value ++ "]"
      match findTagMatch rawType.data with
      | some tag => lowerStr (String.mk tag)
      | none => "unknown"

/-- JS truthiness of a value (`if (condition)`): nullish values, `false`,
zero magnitudes, the not-a-number value and the empty string are falsy. -/
def truthy : JSValue → Bool
  | .undefined => false
  | .null => false
  | .boolean b => b
  | .number (.finite i) => i != 0
  | .number .nan => false
  | .number .posInf => true
  | .number .negInf => true
  | .string s => s.length != 0
  | .symbol _ => true
  | .bigint i => i != 0
  | .func _ => true
  | .object _ _ _ => true

/-- mod.ts line 531: `raise` always throws an error carrying the given
message (the optional cause options are not modelled). -/
def raise (message : String) : Except String Unit := .error message

/-- mod.ts line 495: `assert` throws via `raise` exactly when the condition
is falsy (the source defaults the message to "Assertion failed"; the model
takes it explicitly). -/
def assert (condition : JSValue) (message : String) : Except String Unit :=
  if truthy condition then .ok () else raise message

/-- Overwrite-or-append of one own property (`Reflect.set` on the plain
destination objects built by `pick` / `omit`). -/
def setOwn (props : List (String × JSValue)) (k : String) (v : JSValue) :
    List (String × JSValue) :=
  match props with
  | [] => [(k, v)]
  | p :: rest => if p.1 == k then (k, v) :: rest else p :: setOwn rest k v

/-- `Reflect.ownKeys`. -/
def ownKeys (v : JSValue) : List String := (ownProps v).map Prod.fst

/-- mod.ts line 639: `pick`. Rejects sources whose primitive tag is not
`"object"` and the null source; otherwise builds a destination sharing the
source's prototype and copies each listed key present on the source or its
prototype chain. -/
def pick (src : JSValue) (keys : List String) : Except String JSValue :=
  if jsTypeof src != "object" || isNull src then
    .error "The source must be a non-null object"
  else
    let dest := keys.foldl
      (fun acc k =>
        if hasPropChain k src then setOwn acc k (getPropChain k src) else acc) []
    .ok (.object .plain dest (protoOf src))

/-- mod.ts line 677: `omit`. Same source guard; builds a destination
sharing the source's prototype and copies every own key not listed. -/
def «omit» (src : JSValue) (keys : List String) : Except String JSValue :=
  if jsTypeof src != "object" || isNull src then
    .error "The source must be a non-null object"
  else
    let dest := (ownKeys src).foldl
      (fun acc k =>
        if keys.contains k then acc else setOwn acc k (getPropChain k src)) []
    .ok (.object .plain dest (protoOf src))

/-- Whether a `pick` / `omit` call raised. -/
def raisesErr : Except String JSValue → Bool
  | .error _ => true
  | .ok _ => false

/-- Spread-style union of two result objects, used to state the
pick / omit round-trip: own properties of the first then the second (later
wins), keeping the prototype the two results share. -/
def mergeObjects (a b : JSValue) : JSValue :=
  .object .plain
    ((ownProps b).foldl (fun acc p => setOwn acc p.1 p.2) (ownProps a))
    (protoOf a)

/-- Structural equality of objects: same prototype and the same
own-property mapping (insertion order disregarded). -/
def StructEq (a b : JSValue) : Prop :=
  protoOf a = protoOf b ∧ ∀ k, lookupProp (ownProps a) k = lookupProp (ownProps b) k

/-- The lowercase typed-array tags of the closed enumeration. -/
def typedArrayTags : List String :=
  ["int8array", "uint8array", "uint8clampedarray", "int16array", "uint16array",
   "int32array", "uint32array", "float32array", "float64array",
   "bigint64array", "biguint64array"]

/-- The closed tag enumeration of spec section 3. -/
def closedTagSet : List String :=
  ["undefined", "null", "boolean", "number", "nan", "infinity", "string",
   "symbol", "bigint", "array", "date", "regexp", "function", "object",
   "map", "set", "promise", "error", "arraybuffer"] ++ typedArrayTags ++ ["unknown"]

/-- Whether the value is an object carrying a custom toStringTag override,
the one source of classifier tags outside the built-in set. -/
def hasCustomTag : JSValue → Bool
  | .object (.tagged _) _ _ => true
  | _ => false

/-- The mutually-exclusive category predicates, applied to one value. -/
def categoryFlags (v : JSValue) : List Bool :=
  [isString v, isNumber v, isBoolean v, isSymbol v, isBigInt v, isArray v,
   isMap v, isSet v, isRegExp v, isDate v, isFunction v]

example : getTypeOf (.number .nan) = "nan" := by decide
example : getTypeOf (.number .posInf) = "infinity" := by decide
example : getTypeOf (.object .map [] .null) = "map" := by decide
example : getTypeOf (.object (.typedArr .int8) [] .null) = "int8array" := by decide
example : getTypeOf (.object (.tagged "Foo") [] .null) = "foo" := by decide
example : getTypeOf (.object (.tagged "NaN") [] .null) = "nan" := by decide
example : getTypeOf (.object (.tagged "a b") [] .null) = "unknown" := by decide
example : getTypeOf (.func 3) = "function" := by decide
example : getTypeOf (.object (.date .nan) [] .null) = "date" := by decide
example : isObject .null = true := by decide
example : isPlainObject .null = false := by decide
example : isPromise (.object .plain
    [("then", .func 1), ("catch", .func 2), ("finally", .func 3)] .null) = true := by
  decide
example : pick (.object .plain [("a", .boolean true), ("b", .null)] .null) ["a"] =
    .ok (.object .plain [("a", .boolean true)] .null) := by rfl
example : «omit» (.object .plain [("a", .boolean true), ("b", .null)] .null) ["a"] =
    .ok (.object .plain [("b", .null)] .null) := by rfl
example : raisesErr (pick .null ["a"]) = true := by decide
example : raisesErr (pick (.func 0) []) = true := by decide

theorem isNull_true_iff (v : JSValue) : isNull v = true ↔ v = .null := by
  cases v <;> simp [isNull]

theorem isNull_false_iff (v : JSValue) : isNull v = false ↔ v ≠ .null := by
  cases v <;> simp [isNull]

/-- C4: `isObject(null)` is true — the primitive-tag quirk, since the host
`typeof null` is `"object"` — while `isPlainObject(null)` is false. -/
theorem c4_isObject_null_quirk :
    isObject .null = true ∧ isPlainObject .null = false := by decide

/-- C5: every date instance classifies as `"date"` regardless of whether
its internal timestamp is valid, while `isDate` holds exactly when the
internal timestamp is a finite number. -/
theorem c5_date_classifier_vs_predicate (t : JSNumber)
    (props : List (String × JSValue)) (proto : JSValue) :
    getTypeOf (.object (.date t) props proto) = "date" ∧
      (isDate (.object (.date t) props proto) = true ↔ isFiniteJSNum t = true) := by
  refine ⟨rfl, ?_⟩
  simp [isDate, isInstanceOf, getTime]

/-- C7: `pick` and `omit` raise exactly when the source is null or not of
object type, and on any non-null object-typed source they return
normally. -/
theorem c7_pick_omit_error_iff (src : JSValue) (keys : List String) :
    (raisesErr (pick src keys) = true ↔ (src = .null ∨ jsTypeof src ≠ "object")) ∧
      (raisesErr («omit» src keys) = true ↔ (src = .null ∨ jsTypeof src ≠ "object")) := by
  cases src <;> simp [pick, «omit», raisesErr, jsTypeof, isNull]

/-- C8: `isPromise` holds exactly for native promise instances, or non-null
object-tagged values exposing callable members named `then`, `catch` and
`finally` (the duck-typed thenable fallback). -/
theorem c8_isPromise_iff (v : JSValue) :
    isPromise v = true ↔
      (isInstanceOf v .promise = true ∨
        (jsTypeof v = "object" ∧ v ≠ .null ∧
          hasPropChain "then" v = true ∧ isFunction (getPropChain "then" v) = true ∧
          hasPropChain "catch" v = true ∧ isFunction (getPropChain "catch" v) = true ∧
          hasPropChain "finally" v = true ∧
          isFunction (getPropChain "finally" v) = true)) := by
  simp [isPromise, isObject, Bool.or_eq_true, Bool.and_eq_true, beq_iff_eq,
    Bool.not_eq_true', isNull_false_iff, and_assoc]

/-- C9: `assert` raises an error carrying its message exactly on falsy
conditions and returns normally exactly on truthy ones — in particular at
the conditions 0 and 1 — and `raise` always raises its message. -/
theorem c9_assert_raise :
    (∀ c m, (assert c m = .error m ↔ truthy c = false) ∧
      (assert c m = .ok () ↔ truthy c = true)) ∧
    assert (.number (.finite 0)) "msg" = .error "msg" ∧
    assert (.number (.finite 1)) "msg" = .ok () ∧
    (∀ m, raise m = .error m) := by
  refine ⟨fun c m => ?_, rfl, rfl, fun m => rfl⟩
  cases h : truthy c <;> simp [assert, raise, h]

/-- C1 counterexample: an object with a custom toStringTag override
classifies via the internal-tag fallback to a tag outside the closed
enumeration — the classifier's co-domain is not the closed set. -/
theorem c1_counterexample :
    getTypeOf (.object (.tagged "Foo") [] .null) = "foo" ∧
      "foo" ∉ closedTagSet := by decide

theorem ne_empty_of_bne (s : String) (h : (s != "") = true) : s ≠ "" := by
  simpa [bne_iff_ne] using h

/-- The classifier on a custom-tagged object is the internal-tag fallback:
the lowered captured word run when the pattern matches, `"unknown"`
otherwise. -/
theorem getTypeOf_tagged (s : String) (props : List (String × JSValue))
    (proto : JSValue) :
    getTypeOf (.object (.tagged s) props proto) =
      match findTagMatch ("[object " ++ s ++ "]").data with
      | some tag => lowerStr (String.mk tag)
      | none => "unknown" := rfl

/-- A successful tag match always captures a non-empty word run. -/
theorem findTagMatch_ne_nil (cs tag : List Char)
    (h : findTagMatch cs = some tag) : tag ≠ [] := by
  induction cs with
  | nil => simp [findTagMatch] at h
  | cons c rest ih =>
    simp only [findTagMatch] at h
    split at h
    · split at h
      · rename_i hcond
        simp only [Bool.and_eq_true, decide_eq_true_eq] at hcond
        injection h with h'
        subst h'
        exact List.ne_nil_of_length_pos hcond.1
      · exact ih h
    · exact ih h

/-- Lowercasing preserves non-emptiness. -/
theorem lowerStr_ne_empty (s : String) (h : s.data ≠ []) : lowerStr s ≠ "" := by
  intro he
  apply h
  have hd := congrArg String.data he
  simpa [lowerStr, List.map_eq_nil_iff] using hd

/-- C1 (amended): for every input value the classifier is total, returning
exactly one non-empty tag and never throwing; and for every value that
does not carry a custom toStringTag override the tag is drawn from the
closed enumeration of spec section 3. -/
theorem c1_total_and_closed (v : JSValue) :
    getTypeOf v ≠ "" ∧
      (hasCustomTag v = false → getTypeOf v ∈ closedTagSet) := by
  constructor
  · cases v with
    | undefined => exact ne_empty_of_bne _ rfl
    | null => exact ne_empty_of_bne _ rfl
    | boolean b => exact ne_empty_of_bne _ rfl
    | number n => cases n <;> exact ne_empty_of_bne _ rfl
    | string s => exact ne_empty_of_bne _ rfl
    | symbol i => exact ne_empty_of_bne _ rfl
    | bigint i => exact ne_empty_of_bne _ rfl
    | func i => exact ne_empty_of_bne _ rfl
    | object cls props proto =>
      cases cls with
      | plain => exact ne_empty_of_bne _ rfl
      | array => exact ne_empty_of_bne _ rfl
      | date t => exact ne_empty_of_bne _ rfl
      | regexp => exact ne_empty_of_bne _ rfl
      | map => exact ne_empty_of_bne _ rfl
      | set => exact ne_empty_of_bne _ rfl
      | promise => exact ne_empty_of_bne _ rfl
      | error => exact ne_empty_of_bne _ rfl
      | arraybuffer => exact ne_empty_of_bne _ rfl
      | typedArr t => cases t <;> exact ne_empty_of_bne _ rfl
      | tagged s =>
        rw [getTypeOf_tagged]
        cases hm : findTagMatch ("[object " ++ s ++ "]").data with
        | none => decide
        | some tag => exact lowerStr_ne_empty _ (findTagMatch_ne_nil _ _ hm)
  · intro h
    have hb : closedTagSet.contains (getTypeOf v) = true := by
      cases v with
      | undefined => rfl
      | null => rfl
      | boolean b => rfl
      | number n => cases n <;> rfl
      | string s => rfl
      | symbol i => rfl
      | bigint i => rfl
      | func i => rfl
      | object cls props proto =>
        cases cls with
        | plain => rfl
        | array => rfl
        | date t => rfl
        | regexp => rfl
        | map => rfl
        | set => rfl
        | promise => rfl
        | error => rfl
        | arraybuffer => rfl
        | typedArr t => cases t <;> rfl
        | tagged s => simp [hasCustomTag] at h
    simpa using hb

theorem c1_total_and_closed_witness :
    hasCustomTag (.object .map [] .null) = false ∧
      (getTypeOf (.object .map [] .null) ≠ "" ∧
        getTypeOf (.object .map [] .null) ∈ closedTagSet) :=
  ⟨by decide,
    (c1_total_and_closed (.object .map [] .null)).1,
    (c1_total_and_closed (.object .map [] .null)).2 (by decide)⟩


/-- C2: for every value, at most one of the eleven category predicates
`isString`, `isNumber`, `isBoolean`, `isSymbol`, `isBigInt`, `isArray`,
`isMap`, `isSet`, `isRegExp`, `isDate`, `isFunction` is true. -/
theorem c2_predicates_mutually_exclusive (v : JSValue) :
    (categoryFlags v).count true ≤ 1 := by
  have hb : Nat.ble ((categoryFlags v).count true) 1 = true := by
    cases v with
    | undefined => rfl
    | null => rfl
    | boolean b => rfl
    | number n => cases n <;> rfl
    | string s => rfl
    | symbol i => rfl
    | bigint i => rfl
    | func i => rfl
    | object cls props proto =>
      cases cls with
      | plain => rfl
      | array => rfl
      | date t => cases t <;> rfl
      | regexp => rfl
      | map => rfl
      | set => rfl
      | promise => rfl
      | error => rfl
      | arraybuffer => rfl
      | typedArr t => rfl
      | tagged s => rfl
  exact Nat.le_of_ble_eq_true hb

/-- C3 counterexample: an object whose custom toStringTag is `"NaN"`
classifies as `"nan"` through the internal-tag fallback although it is not
numeric-typed, so the biconditional of the claim fails on it. -/
theorem c3_counterexample :
    getTypeOf (.object (.tagged "NaN") [] .null) = "nan" ∧
      ¬(jsTypeof (.object (.tagged "NaN") [] .null) = "number" ∧
        selfStrictEq (.object (.tagged "NaN") [] .null) = false) := by decide

/-- C3 (amended): for every value without a custom toStringTag override,
`getTypeOf` returns `"nan"` exactly when the value is numeric-typed and
not strictly self-equal; on numeric values the code's guarded global
`isNaN` coincides with the exact self-inequality test. -/
theorem c3_nan_iff (v : JSValue) (h : hasCustomTag v = false) :
    getTypeOf v = "nan" ↔ (jsTypeof v = "number" ∧ selfStrictEq v = false) := by
  have hb : (getTypeOf v == "nan") = (jsTypeof v == "number" && !selfStrictEq v) := by
    cases v with
    | undefined => rfl
    | null => rfl
    | boolean b => rfl
    | number n => cases n <;> rfl
    | string s => rfl
    | symbol i => rfl
    | bigint i => rfl
    | func i => rfl
    | object cls props proto =>
      cases cls with
      | plain => rfl
      | array => rfl
      | date t => rfl
      | regexp => rfl
      | map => rfl
      | set => rfl
      | promise => rfl
      | error => rfl
      | arraybuffer => rfl
      | typedArr t => cases t <;> rfl
      | tagged s => simp [hasCustomTag] at h
  have hb2 : ((getTypeOf v == "nan") = true) ↔
      ((jsTypeof v == "number" && !selfStrictEq v) = true) := by rw [hb]
  simpa [Bool.and_eq_true, Bool.not_eq_true', beq_iff_eq] using hb2

theorem c3_nan_iff_witness :
    hasCustomTag (.number .nan) = false ∧
      (getTypeOf (.number .nan) = "nan" ↔
        (jsTypeof (.number .nan) = "number" ∧ selfStrictEq (.number .nan) = false)) :=
  ⟨by decide, c3_nan_iff (.number .nan) (by decide)⟩

theorem contains_true_iff (l : List String) (a : String) :
    l.contains a = true ↔ a ∈ l := by simp

@[simp] theorem lookupProp_nil (k : String) : lookupProp [] k = none := rfl

theorem lookupProp_eq_none (ps : List (String × JSValue)) (k : String)
    (h : k ∉ ps.map Prod.fst) : lookupProp ps k = none := by
  induction ps with
  | nil => rfl
  | cons p rest ih =>
    simp only [List.map_cons, List.mem_cons] at h
    push_neg at h
    simp [lookupProp, beq_iff_eq, Ne.symm h.1, ih h.2]

theorem lookupProp_isSome_iff (ps : List (String × JSValue)) (k : String) :
    (lookupProp ps k).isSome = true ↔ k ∈ ps.map Prod.fst := by
  induction ps with
  | nil => simp [lookupProp]
  | cons p rest ih =>
    by_cases h : p.1 = k
    · simp [lookupProp, h]
    · simp [lookupProp, beq_iff_eq, h, Ne.symm h, ih]

theorem lookupProp_setOwn (ps : List (String × JSValue)) (k : String) (v : JSValue)
    (k' : String) :
    lookupProp (setOwn ps k v) k' = if k' = k then some v else lookupProp ps k' := by
  induction ps with
  | nil =>
    by_cases h : k' = k
    · simp [setOwn, lookupProp, h]
    · simp [setOwn, lookupProp, beq_iff_eq, h, Ne.symm h]
  | cons p rest ih =>
    by_cases hp : p.1 = k
    · by_cases h' : k' = k
      · simp [setOwn, lookupProp, beq_iff_eq, hp, h']
      · simp [setOwn, lookupProp, beq_iff_eq, hp, h', Ne.symm h']
    · by_cases h' : p.1 = k'
      · have hkk : ¬(k' = k) := fun e => hp (h'.trans e)
        simp [setOwn, lookupProp, beq_iff_eq, hp, h', hkk]
      · simp [setOwn, lookupProp, beq_iff_eq, hp, h', ih]

theorem setOwn_of_not_mem (ps : List (String × JSValue)) (k : String) (v : JSValue)
    (h : k ∉ ps.map Prod.fst) : setOwn ps k v = ps ++ [(k, v)] := by
  induction ps with
  | nil => rfl
  | cons p rest ih =>
    simp only [List.map_cons, List.mem_cons] at h
    push_neg at h
    simp [setOwn, beq_iff_eq, Ne.symm h.1, ih h.2]

theorem keys_setOwn_mem (ps : List (String × JSValue)) (k : String) (v : JSValue)
    (k' : String) :
    k' ∈ (setOwn ps k v).map Prod.fst ↔ k' ∈ ps.map Prod.fst ∨ k' = k := by
  induction ps with
  | nil => simp [setOwn]
  | cons p rest ih =>
    by_cases hp : p.1 = k
    · simp [setOwn, beq_iff_eq, hp]
      tauto
    · simp [setOwn, beq_iff_eq, hp, ih]
      tauto

theorem nodup_keys_setOwn (ps : List (String × JSValue)) (k : String) (v : JSValue)
    (h : (ps.map Prod.fst).Nodup) : ((setOwn ps k v).map Prod.fst).Nodup := by
  induction ps with
  | nil => simp [setOwn]
  | cons p rest ih =>
    simp only [List.map_cons, List.nodup_cons] at h
    by_cases hp : p.1 = k
    · simp only [setOwn, beq_iff_eq]
      simp [hp, hp ▸ h.1, h.2]
    · simp only [setOwn, beq_iff_eq]
      simp only [if_neg hp, List.map_cons, List.nodup_cons]
      refine ⟨fun hin => ?_, ih h.2⟩
      rcases (keys_setOwn_mem rest k v p.1).mp hin with hmem | heq
      · exact h.1 hmem
      · exact hp heq

theorem lookupProp_of_nodup_mem (ps : List (String × JSValue)) (k : String)
    (w : JSValue) (hnd : (ps.map Prod.fst).Nodup) (hm : (k, w) ∈ ps) :
    lookupProp ps k = some w := by
  induction ps with
  | nil => cases hm
  | cons p rest ih =>
    simp only [List.map_cons, List.nodup_cons] at hnd
    rcases List.mem_cons.mp hm with h | h
    · rw [← h]
      simp [lookupProp]
    · have hne : p.1 ≠ k := by
        intro e
        exact hnd.1 (e ▸ List.mem_map.mpr ⟨(k, w), h, rfl⟩)
      simp [lookupProp, beq_iff_eq, hne, ih hnd.2 h]

theorem getPropChain_own (cls : JSClass) (props : List (String × JSValue))
    (proto : JSValue) (k : String) (w : JSValue)
    (h : lookupProp props k = some w) :
    getPropChain k (.object cls props proto) = w := by
  simp [getPropChain, h]

theorem hasPropChain_own (cls : JSClass) (props : List (String × JSValue))
    (proto : JSValue) (k : String)
    (h : (lookupProp props k).isSome = true) :
    hasPropChain k (.object cls props proto) = true := by
  simp [hasPropChain, h]

theorem lookupProp_pickFold (src : JSValue) :
    ∀ (keys : List String) (acc : List (String × JSValue)) (k' : String),
      lookupProp (keys.foldl (fun acc k =>
          if hasPropChain k src then setOwn acc k (getPropChain k src) else acc) acc) k' =
        if k' ∈ keys ∧ hasPropChain k' src = true then some (getPropChain k' src)
        else lookupProp acc k' := by
  intro keys
  induction keys with
  | nil => intro acc k'; simp
  | cons k rest ih =>
    intro acc k'
    simp only [List.foldl_cons]
    rw [ih]
    by_cases hmem : k' ∈ rest ∧ hasPropChain k' src = true
    · simp [hmem, List.mem_cons, hmem.1, hmem.2]
    · by_cases hk : k' = k
      · subst hk
        by_cases hp : hasPropChain k' src = true
        · simp [hmem, hp, lookupProp_setOwn]
        · simp only [Bool.not_eq_true] at hp
          simp [hmem, hp]
      · by_cases hp : hasPropChain k src = true
        · simp only [hp, if_true, lookupProp_setOwn, hk, if_false]
          simp [List.mem_cons, hk, hmem]
        · simp only [Bool.not_eq_true] at hp
          simp [hp, hk, hmem, List.mem_cons]

theorem lookupProp_omitFold (src : JSValue) (keys : List String) :
    ∀ (ks : List String) (acc : List (String × JSValue)) (k' : String),
      lookupProp (ks.foldl (fun acc k =>
          if keys.contains k then acc else setOwn acc k (getPropChain k src)) acc) k' =
        if k' ∈ ks ∧ k' ∉ keys then some (getPropChain k' src)
        else lookupProp acc k' := by
  intro ks
  induction ks with
  | nil => intro acc k'; simp
  | cons k rest ih =>
    intro acc k'
    simp only [List.foldl_cons]
    rw [ih]
    by_cases hc : k ∈ keys
    · rw [if_pos ((contains_true_iff keys k).mpr hc)]
      by_cases hm : k' ∈ rest ∧ k' ∉ keys
      · simp [hm, hm.1, hm.2, List.mem_cons]
      · have hcons : ¬(k' ∈ k :: rest ∧ k' ∉ keys) := by
          rintro ⟨hmc, hnk⟩
          rcases List.mem_cons.mp hmc with rfl | hr
          · exact hnk hc
          · exact hm ⟨hr, hnk⟩
        have hcons' : ¬((k' = k ∨ k' ∈ rest) ∧ k' ∉ keys) := by
          simpa [List.mem_cons] using hcons
        simp [hm, hcons']
    · rw [if_neg (fun h => hc ((contains_true_iff keys k).mp h))]
      by_cases hm : k' ∈ rest ∧ k' ∉ keys
      · simp [hm, hm.1, hm.2, List.mem_cons]
      · by_cases hk : k' = k
        · subst hk
          simp [hm, lookupProp_setOwn, List.mem_cons, hc]
        · have hcons : ¬(k' ∈ k :: rest ∧ k' ∉ keys) := by
            rintro ⟨hmc, hnk⟩
            rcases List.mem_cons.mp hmc with rfl | hr
            · exact hk rfl
            · exact hm ⟨hr, hnk⟩
          have hcons' : ¬((k' = k ∨ k' ∈ rest) ∧ k' ∉ keys) := by
            simpa [List.mem_cons] using hcons
          simp [hm, hcons', lookupProp_setOwn, hk]

theorem lookupProp_mergeFold_none :
    ∀ (bs acc : List (String × JSValue)) (k' : String),
      lookupProp bs k' = none →
      lookupProp (bs.foldl (fun acc p => setOwn acc p.1 p.2) acc) k' =
        lookupProp acc k' := by
  intro bs
  induction bs with
  | nil => intro acc k' _; rfl
  | cons p rest ih =>
    intro acc k' h
    by_cases hp : p.1 = k'
    · simp [lookupProp, beq_iff_eq, hp] at h
    · have h' : lookupProp rest k' = none := by
        simpa [lookupProp, beq_iff_eq, hp] using h
      simp only [List.foldl_cons]
      rw [ih _ _ h', lookupProp_setOwn]
      simp [Ne.symm hp]

theorem lookupProp_mergeFold_some :
    ∀ (bs acc : List (String × JSValue)) (k' : String) (w : JSValue),
      (bs.map Prod.fst).Nodup → lookupProp bs k' = some w →
      lookupProp (bs.foldl (fun acc p => setOwn acc p.1 p.2) acc) k' = some w := by
  intro bs
  induction bs with
  | nil => intro acc k' w _ h; cases h
  | cons p rest ih =>
    intro acc k' w hnd h
    simp only [List.map_cons, List.nodup_cons] at hnd
    simp only [List.foldl_cons]
    by_cases hp : p.1 = k'
    · have hw : w = p.2 := by
        simp [lookupProp, beq_iff_eq, hp] at h
        exact h.symm
      have hrest : lookupProp rest k' = none :=
        lookupProp_eq_none _ _ (hp ▸ hnd.1)
      rw [lookupProp_mergeFold_none _ _ _ hrest, lookupProp_setOwn]
      simp [hp, hw]
    · have h' : lookupProp rest k' = some w := by
        simpa [lookupProp, beq_iff_eq, hp] using h
      exact ih _ _ _ hnd.2 h'

theorem nodup_keys_omitFold (src : JSValue) (keys : List String) :
    ∀ (ks : List String) (acc : List (String × JSValue)),
      (acc.map Prod.fst).Nodup →
      ((ks.foldl (fun acc k =>
          if keys.contains k then acc else setOwn acc k (getPropChain k src)) acc).map
        Prod.fst).Nodup := by
  intro ks
  induction ks with
  | nil => intro acc h; exact h
  | cons k rest ih =>
    intro acc h
    simp only [List.foldl_cons]
    by_cases hc : k ∈ keys
    · rw [if_pos ((contains_true_iff keys k).mpr hc)]
      exact ih _ h
    · rw [if_neg (fun hx => hc ((contains_true_iff keys k).mp hx))]
      exact ih _ (nodup_keys_setOwn _ _ _ h)

theorem omitFold_eq_append (src : JSValue) (keys : List String) :
    ∀ (ks : List String) (acc : List (String × JSValue)),
      (∀ k ∈ ks, keys.contains k = false) →
      (∀ k ∈ ks, k ∉ acc.map Prod.fst) →
      ks.Nodup →
      ks.foldl (fun acc k =>
          if keys.contains k then acc else setOwn acc k (getPropChain k src)) acc =
        acc ++ ks.map (fun k => (k, getPropChain k src)) := by
  intro ks
  induction ks with
  | nil => intro acc _ _ _; simp
  | cons k rest ih =>
    intro acc hc hacc hnd
    simp only [List.nodup_cons] at hnd
    simp only [List.foldl_cons, hc k (List.mem_cons_self k rest), Bool.false_eq_true,
      if_false]
    rw [setOwn_of_not_mem _ _ _ (hacc k (List.mem_cons_self k rest))]
    rw [ih _ (fun x hx => hc x (List.mem_cons_of_mem _ hx)) ?hacc hnd.2]
    · simp
    case hacc =>
      intro x hx
      simp only [List.map_append, List.map_cons, List.map_nil, List.mem_append,
        List.mem_singleton]
      rintro (hmem | rfl)
      · exact hacc x (List.mem_cons_of_mem _ hx) hmem
      · exact hnd.1 hx

theorem map_keys_getPropChain (cls : JSClass) (props : List (String × JSValue))
    (proto : JSValue) (hnd : (props.map Prod.fst).Nodup) :
    (props.map Prod.fst).map
        (fun k => (k, getPropChain k (.object cls props proto))) = props := by
  rw [List.map_map]
  have hpt : ∀ p ∈ props,
      ((fun k => (k, getPropChain k (.object cls props proto))) ∘ Prod.fst) p = p := by
    intro p hp
    have hm : (p.1, p.2) ∈ props := by simpa using hp
    have hlk : lookupProp props p.1 = some p.2 :=
      lookupProp_of_nodup_mem _ _ _ hnd hm
    simp [Function.comp, getPropChain_own _ _ _ _ _ hlk]
  calc props.map ((fun k => (k, getPropChain k (.object cls props proto))) ∘ Prod.fst)
      = props.map id := List.map_congr_left hpt
    _ = props := List.map_id _

/-- C6: when the listed keys are own keys of the source object, merging
`pick(obj, keys)` with `omit(obj, keys)` rebuilds an object structurally
equal to `obj` (same prototype, same own-property mapping); `pick(obj, [])`
yields an empty object and `omit(obj, [])` yields a full shallow copy. -/
theorem c6_pick_omit_roundtrip (cls : JSClass) (props : List (String × JSValue))
    (proto : JSValue) (keys : List String)
    (hnd : (props.map Prod.fst).Nodup)
    (hsub : ∀ k ∈ keys, k ∈ props.map Prod.fst) :
    (∃ pr om, pick (.object cls props proto) keys = .ok pr ∧
      «omit» (.object cls props proto) keys = .ok om ∧
      StructEq (mergeObjects pr om) (.object cls props proto)) ∧
    pick (.object cls props proto) [] = .ok (.object .plain [] proto) ∧
    «omit» (.object cls props proto) [] = .ok (.object .plain props proto) := by
  have hpick : pick (.object cls props proto) keys =
      .ok (.object .plain
        (keys.foldl (fun acc k =>
          if hasPropChain k (.object cls props proto) then
            setOwn acc k (getPropChain k (.object cls props proto))
          else acc) [])
        proto) := rfl
  have homit : «omit» (.object cls props proto) keys =
      .ok (.object .plain
        ((props.map Prod.fst).foldl (fun acc k =>
          if keys.contains k then acc
          else setOwn acc k (getPropChain k (.object cls props proto))) [])
        proto) := rfl
  refine ⟨⟨_, _, hpick, homit, rfl, ?_⟩, rfl, ?_⟩
  · intro k
    simp only [mergeObjects, ownProps, protoOf]
    by_cases hmem : k ∈ props.map Prod.fst
    · obtain ⟨w, hw⟩ :=
        Option.isSome_iff_exists.mp ((lookupProp_isSome_iff props k).mpr hmem)
      have hget : getPropChain k (.object cls props proto) = w :=
        getPropChain_own _ _ _ _ _ hw
      by_cases hkeys : k ∈ keys
      · have hO : lookupProp ((props.map Prod.fst).foldl (fun acc k =>
            if keys.contains k then acc
            else setOwn acc k (getPropChain k (.object cls props proto))) []) k =
            none := by
          rw [lookupProp_omitFold]
          simp [hkeys]
        have hhas : hasPropChain k (.object cls props proto) = true :=
          hasPropChain_own _ _ _ _ (by simp [hw])
        have hP : lookupProp (keys.foldl (fun acc k =>
            if hasPropChain k (.object cls props proto) then
              setOwn acc k (getPropChain k (.object cls props proto))
            else acc) []) k = some w := by
          rw [lookupProp_pickFold]
          simp [hkeys, hhas, hget]
        rw [lookupProp_mergeFold_none _ _ _ hO, hP, hw]
      · have hO : lookupProp ((props.map Prod.fst).foldl (fun acc k =>
            if keys.contains k then acc
            else setOwn acc k (getPropChain k (.object cls props proto))) []) k =
            some w := by
          rw [lookupProp_omitFold]
          simp [hkeys, hmem, hget]
        have hOnd := nodup_keys_omitFold (JSValue.object cls props proto) keys
          (props.map Prod.fst) [] (by simp)
        rw [lookupProp_mergeFold_some _ _ _ _ hOnd hO, hw]
    · have hkeys : k ∉ keys := fun hkk => hmem (hsub k hkk)
      have hO : lookupProp ((props.map Prod.fst).foldl (fun acc k =>
          if keys.contains k then acc
          else setOwn acc k (getPropChain k (.object cls props proto))) []) k =
          none := by
        rw [lookupProp_omitFold]
        simp [hmem]
      have hP : lookupProp (keys.foldl (fun acc k =>
          if hasPropChain k (.object cls props proto) then
            setOwn acc k (getPropChain k (.object cls props proto))
          else acc) []) k = none := by
        rw [lookupProp_pickFold]
        simp [hkeys]
      rw [lookupProp_mergeFold_none _ _ _ hO, hP, lookupProp_eq_none _ _ hmem]
  · have h0 : «omit» (.object cls props proto) [] =
        .ok (.object .plain
          ((props.map Prod.fst).foldl (fun acc k =>
            if ([] : List String).contains k then acc
            else setOwn acc k (getPropChain k (.object cls props proto))) [])
          proto) := rfl
    have happ := omitFold_eq_append (JSValue.object cls props proto) []
      (props.map Prod.fst) [] (fun k _ => rfl) (by simp) hnd
    rw [h0, happ]
    simp [map_keys_getPropChain _ _ _ hnd]

theorem c6_pick_omit_roundtrip_witness :
    ((([("a", JSValue.boolean true), ("b", JSValue.null)] :
        List (String × JSValue)).map Prod.fst).Nodup ∧
      (∀ k ∈ (["a"] : List String),
        k ∈ ([("a", JSValue.boolean true), ("b", JSValue.null)] :
          List (String × JSValue)).map Prod.fst)) ∧
    ((∃ pr om,
        pick (.object .plain [("a", .boolean true), ("b", .null)] .null) ["a"] =
          .ok pr ∧
        «omit» (.object .plain [("a", .boolean true), ("b", .null)] .null) ["a"] =
          .ok om ∧
        StructEq (mergeObjects pr om)
          (.object .plain [("a", .boolean true), ("b", .null)] .null)) ∧
      pick (.object .plain [("a", .boolean true), ("b", .null)] .null) [] =
        .ok (.object .plain [] .null) ∧
      «omit» (.object .plain [("a", .boolean true), ("b", .null)] .null) [] =
        .ok (.object .plain [("a", .boolean true), ("b", .null)] .null)) :=
  ⟨⟨by decide, by decide⟩,
    c6_pick_omit_roundtrip .plain [("a", .boolean true), ("b", .null)] .null ["a"]
      (by decide) (by decide)⟩

/-- C10: for every non-null object source and listed key, `pick`
materialises the key as an own property of the result exactly when the key
is present on the source or anywhere on its prototype chain (with the
value read through the chain), and the result shares the source's
prototype. -/
theorem c10_pick_prototype_chain (cls : JSClass) (props : List (String × JSValue))
    (proto : JSValue) (keys : List String) (k : String) (r : JSValue)
    (hk : k ∈ keys)
    (hr : pick (.object cls props proto) keys = .ok r) :
    ((lookupProp (ownProps r) k).isSome = true ↔
        hasPropChain k (.object cls props proto) = true) ∧
    (hasPropChain k (.object cls props proto) = true →
        lookupProp (ownProps r) k = some (getPropChain k (.object cls props proto))) ∧
    protoOf r = proto := by
  have hpick : pick (.object cls props proto) keys =
      .ok (.object .plain
        (keys.foldl (fun acc k =>
          if hasPropChain k (.object cls props proto) then
            setOwn acc k (getPropChain k (.object cls props proto))
          else acc) [])
        proto) := rfl
  rw [hpick] at hr
  injection hr with hr'
  subst hr'
  refine ⟨?_, ?_, rfl⟩
  · simp only [ownProps]
    rw [lookupProp_pickFold]
    by_cases hhas : hasPropChain k (.object cls props proto) = true
    · simp [hk, hhas]
    · simp only [Bool.not_eq_true] at hhas
      simp [hhas]
  · intro hhas
    simp only [ownProps]
    rw [lookupProp_pickFold]
    simp [hk, hhas]

theorem c10_pick_prototype_chain_witness :
    (("a" : String) ∈ (["a"] : List String) ∧
      pick (.object .plain [] (.object .plain [("a", .string "x")] .null)) ["a"] =
        .ok (.object .plain [("a", .string "x")]
          (.object .plain [("a", .string "x")] .null))) ∧
    (((lookupProp (ownProps (JSValue.object .plain [("a", .string "x")]
          (.object .plain [("a", .string "x")] .null))) "a").isSome = true ↔
        hasPropChain "a" (.object .plain []
          (.object .plain [("a", .string "x")] .null)) = true) ∧
      (hasPropChain "a" (.object .plain []
          (.object .plain [("a", .string "x")] .null)) = true →
        lookupProp (ownProps (JSValue.object .plain [("a", .string "x")]
            (.object .plain [("a", .string "x")] .null))) "a" =
          some (getPropChain "a" (.object .plain []
            (.object .plain [("a", .string "x")] .null)))) ∧
      protoOf (JSValue.object .plain [("a", .string "x")]
          (.object .plain [("a", .string "x")] .null)) =
        .object .plain [("a", .string "x")] .null) :=
  ⟨⟨by decide, rfl⟩,
    c10_pick_prototype_chain .plain [] (.object .plain [("a", .string "x")] .null)
      ["a"] "a" (.object .plain [("a", .string "x")]
        (.object .plain [("a", .string "x")] .null)) (by decide) rfl⟩
